import Mathlib

/-!
Verification of the bytecode compiler and stack virtual machine of the
`monkey` repository (packages `compiler`, `vm`, and the symbol table).

The definitions below are shallow embeddings of the Go source files:
  * the symbol table (`SymbolTable.Define`, `DefineBuiltin`,
    `DefineFunctionName`, `Resolve`),
  * the single-pass compiler (`Compiler.Compile` and its emission helpers),
  * the virtual machine dispatch loop (`VM.Run` and its helper methods).

Go's mutable receivers become explicit state passing: a method that mutates
its receiver and returns an error is embedded as a function returning
`State × Option String` (`none` = no error), so that state changes made
before an error — or on paths where the Go code discards an error — are
preserved exactly as in the source.

The instruction-encoding package (`code`) and the value package (`object`)
are not part of the available sources (only their tests and callers are);
the definitions that stand in for them are marked `Modelled from the spec:`
in their doc comments.
-/

namespace Monkey

/-- Symbol scopes, from `SymbolScope` and its five constants
(`GlobalScope`, `LocalScope`, `BuiltinScope`, `FreeScope`,
`FunctionScope`) in the symbol-table source file. -/
inductive Scope where
  | global
  | localScope
  | builtin
  | free
  | function
deriving DecidableEq, Repr

/-- `Symbol` from the symbol-table source: (Name, Scope, Index). -/
structure Symbol where
  name : String
  scope : Scope
  index : Nat
deriving DecidableEq, Repr

/-- `SymbolTable` from the symbol-table source: an optional outer table, the
`store` map (embedded as an association list where insertion conses in
front and lookup takes the first match, giving Go-map overwrite
semantics), the `numDefinitions` counter, and the `FreeSymbols` list. -/
inductive SymbolTable where
  | mk (outer : Option SymbolTable) (store : List (String × Symbol))
       (numDefinitions : Nat) (freeSymbols : List Symbol)

/-- The `Outer` field. -/
def SymbolTable.outer : SymbolTable → Option SymbolTable
  | .mk o _ _ _ => o

/-- The `store` field. -/
def SymbolTable.store : SymbolTable → List (String × Symbol)
  | .mk _ s _ _ => s

/-- The `numDefinitions` field. -/
def SymbolTable.numDefinitions : SymbolTable → Nat
  | .mk _ _ n _ => n

/-- The `FreeSymbols` field. -/
def SymbolTable.freeSymbols : SymbolTable → List Symbol
  | .mk _ _ _ f => f

/-- `NewSymbolTable`: empty store, empty free list, no outer. -/
def SymbolTable.new : SymbolTable := .mk none [] 0 []

/-- `NewEnclosedSymbolTable`: a fresh table whose `Outer` is the given one. -/
def SymbolTable.newEnclosed (outer : SymbolTable) : SymbolTable :=
  .mk (some outer) [] 0 []

/-- Go map read `s.store[name]` (first matching entry of the list). -/
def storeGet (store : List (String × Symbol)) (name : String) : Option Symbol :=
  (store.find? (fun p => p.1 = name)).map (·.2)

/-- `SymbolTable.Define`: scope Global if no outer, Local otherwise; index is
the current `numDefinitions`, which then increments; the symbol is stored
under `name`. Returns the symbol and the updated table. -/
def SymbolTable.define : SymbolTable → String → Symbol × SymbolTable
  | .mk outer store n free, name =>
    let scope := match outer with
      | none => Scope.global
      | some _ => Scope.localScope
    let symbol : Symbol := ⟨name, scope, n⟩
    (symbol, .mk outer ((name, symbol) :: store) (n + 1) free)

/-- `SymbolTable.DefineBuiltin`: scope Builtin with the externally supplied
index; `numDefinitions` is not touched. -/
def SymbolTable.defineBuiltin : SymbolTable → Nat → String → Symbol × SymbolTable
  | .mk outer store n free, index, name =>
    let symbol : Symbol := ⟨name, .builtin, index⟩
    (symbol, .mk outer ((name, symbol) :: store) n free)

/-- `SymbolTable.DefineFunctionName`: scope Function with index 0;
`numDefinitions` is not touched. -/
def SymbolTable.defineFunctionName : SymbolTable → String → Symbol × SymbolTable
  | .mk outer store n free, name =>
    let symbol : Symbol := ⟨name, .function, 0⟩
    (symbol, .mk outer ((name, symbol) :: store) n free)

/-- `SymbolTable.Resolve`: consult the local store; on a miss delegate to the
outer table (whose own mutations are threaded back).  A hit from outer with
scope Global or Builtin is returned unchanged; any other outer hit is
promoted: the outer symbol is appended verbatim to `FreeSymbols`, and a copy
with scope Free and index `len(FreeSymbols) - 1` is stored (under the
symbol's own name, as in `s.store[obj.Name] = obj`) and returned. -/
def SymbolTable.resolve : SymbolTable → String → Option Symbol × SymbolTable
  | .mk outerT store n free, name =>
    match storeGet store name with
    | some obj => (some obj, .mk outerT store n free)
    | none =>
      match outerT with
      | none => (none, .mk none store n free)
      | some o =>
        match o.resolve name with
        | (none, o') => (none, .mk (some o') store n free)
        | (some obj, o') =>
          if obj.scope = .global ∨ obj.scope = .builtin then
            (some obj, .mk (some o') store n free)
          else
            let free' := free ++ [obj]
            let obj' : Symbol := ⟨obj.name, .free, free'.length - 1⟩
            (some obj', .mk (some o') ((obj.name, obj') :: store) n free')

/-- A sequence of `Define` calls on one table, returning the symbols in call
order together with the final table. -/
def SymbolTable.defineSeq : SymbolTable → List String → List Symbol × SymbolTable
  | t, [] => ([], t)
  | t, name :: rest =>
    let r := t.define name
    let rs := r.2.defineSeq rest
    (r.1 :: rs.1, rs.2)

/-- A sequence of `DefineBuiltin` (`some index`) and `DefineFunctionName`
(`none`) calls on one table. -/
def SymbolTable.otherDefines : SymbolTable → List (Option Nat × String) → SymbolTable
  | t, [] => t
  | t, (some idx, name) :: rest => ((t.defineBuiltin idx name).2).otherDefines rest
  | t, (none, name) :: rest => ((t.defineFunctionName name).2).otherDefines rest

theorem define_outer (t : SymbolTable) (name : String) :
    (t.define name).2.outer = t.outer := by
  cases t with
  | mk o s n f => rfl

theorem define_numDefinitions (t : SymbolTable) (name : String) :
    (t.define name).2.numDefinitions = t.numDefinitions + 1 := by
  cases t with
  | mk o s n f => rfl

theorem define_symbol (t : SymbolTable) (name : String) :
    (t.define name).1
      = ⟨name, if t.outer.isNone then Scope.global else Scope.localScope,
          t.numDefinitions⟩ := by
  cases t with
  | mk o s n f => cases o <;> rfl

theorem defineSeq_spec (names : List String) (t : SymbolTable) (i : Nat)
    (hi : i < names.length) :
    (((t.defineSeq names).1.getD i ⟨"", Scope.global, 0⟩).index
        = t.numDefinitions + i)
    ∧ (((t.defineSeq names).1.getD i ⟨"", Scope.global, 0⟩).scope
        = if t.outer.isNone then Scope.global else Scope.localScope) := by
  induction names generalizing t i with
  | nil => simp at hi
  | cons hd tl ih =>
    cases i with
    | zero =>
      simp [SymbolTable.defineSeq, define_symbol]
    | succ j =>
      have hj : j < tl.length := by simpa using hi
      have h := ih (t.define hd).2 j hj
      simp only [SymbolTable.defineSeq, List.getD_cons_succ] at h ⊢
      rw [h.1, h.2, define_numDefinitions, define_outer]
      constructor
      · omega
      · rfl

theorem otherDefines_numDefinitions (calls : List (Option Nat × String))
    (t : SymbolTable) :
    (t.otherDefines calls).numDefinitions = t.numDefinitions := by
  induction calls generalizing t with
  | nil => rfl
  | cons c rest ih =>
    obtain ⟨oi, nm⟩ := c
    cases oi with
    | none =>
      rw [SymbolTable.otherDefines, ih]
      cases t with
      | mk o s n f => rfl
    | some idx =>
      rw [SymbolTable.otherDefines, ih]
      cases t with
      | mk o s n f => rfl

/-- C4: when `Resolve(name)` misses locally and hits in the outer table with a
scope that is neither Global nor Builtin, the outer symbol is appended
verbatim to `FreeSymbols`, and a new symbol with scope Free and index
`len(FreeSymbols) - 1` is stored and returned; Global and Builtin hits are
returned unchanged; a second `Resolve` of the same name returns the cached
Free symbol without appending again. -/
theorem resolve_promotes_outer_hit_to_free
    (store : List (String × Symbol)) (n : Nat) (free : List Symbol)
    (o o' : SymbolTable) (name : String) (sym : Symbol)
    (hmiss : storeGet store name = none)
    (hhit : o.resolve name = (some sym, o'))
    (hname : sym.name = name) :
    ((sym.scope = .global ∨ sym.scope = .builtin) →
      (SymbolTable.mk (some o) store n free).resolve name
        = (some sym, .mk (some o') store n free))
    ∧ (sym.scope ≠ .global → sym.scope ≠ .builtin →
      ((SymbolTable.mk (some o) store n free).resolve name
          = (some ⟨name, .free, free.length⟩,
             .mk (some o') ((name, ⟨name, .free, free.length⟩) :: store) n
               (free ++ [sym]))
        ∧ (free ++ [sym]).length - 1 = free.length
        ∧ (SymbolTable.mk (some o') ((name, ⟨name, .free, free.length⟩) :: store)
             n (free ++ [sym])).resolve name
            = (some ⟨name, .free, free.length⟩,
               .mk (some o') ((name, ⟨name, .free, free.length⟩) :: store) n
                 (free ++ [sym])))) := by
  constructor
  · intro hgb
    rw [SymbolTable.resolve, hmiss, hhit]
    simp [hgb]
  · intro hg hb
    have hcond : ¬ (sym.scope = .global ∨ sym.scope = .builtin) := by
      rintro (h | h)
      · exact hg h
      · exact hb h
    refine ⟨?_, by simp, ?_⟩
    · rw [SymbolTable.resolve, hmiss, hhit]
      simp [hcond, hname]
    · rw [SymbolTable.resolve]
      simp [storeGet]

/-- Witness for `resolve_promotes_outer_hit_to_free` at a concrete pair of
nested tables: the outer defines local "a", the inner resolves it. -/
theorem resolve_promotes_outer_hit_to_free_wit :
    ((SymbolTable.mk
        (some (.mk (some .new) [("a", ⟨"a", .localScope, 0⟩)] 1 [])) [] 0
        []).resolve "a").1 = some ⟨"a", .free, 0⟩ := by
  have h := resolve_promotes_outer_hit_to_free
      [] 0 [] (.mk (some .new) [("a", ⟨"a", .localScope, 0⟩)] 1 [])
      (.mk (some .new) [("a", ⟨"a", .localScope, 0⟩)] 1 [])
      "a" ⟨"a", .localScope, 0⟩ rfl rfl rfl
  have h2 := (h.2 (by decide) (by decide)).1
  rw [h2]
  rfl

/-- C5: every `Define` returns the current `numDefinitions` as index and then
increments the counter; a sequence of `Define` calls returns dense indices
`numDefinitions, numDefinitions+1, …` (so `0, 1, 2, …` on a fresh table);
each returned symbol has scope Global exactly when the table has no outer
(Local otherwise). -/
theorem define_indices_dense (t : SymbolTable) (names : List String)
    (name : String) (i : Nat) (hi : i < names.length) :
    (t.define name).1.index = t.numDefinitions
    ∧ (t.define name).2.numDefinitions = t.numDefinitions + 1
    ∧ ((t.define name).1.scope
        = if t.outer.isNone then Scope.global else Scope.localScope)
    ∧ (((t.defineSeq names).1.getD i ⟨"", Scope.global, 0⟩).index
        = t.numDefinitions + i)
    ∧ (t.numDefinitions = 0 →
        ((t.defineSeq names).1.getD i ⟨"", Scope.global, 0⟩).index = i)
    ∧ (((t.defineSeq names).1.getD i ⟨"", Scope.global, 0⟩).scope = Scope.global
        ↔ t.outer = none) := by
  have hs := defineSeq_spec names t i hi
  refine ⟨by rw [define_symbol], define_numDefinitions t name,
    by rw [define_symbol], hs.1, by intro h; rw [hs.1, h]; omega, ?_⟩
  rw [hs.2]
  cases h : t.outer <;> simp

/-- Witness for `define_indices_dense` on a fresh table and three names. -/
theorem define_indices_dense_wit :
    ((SymbolTable.new.defineSeq ["a", "b", "c"]).1.getD 1
        ⟨"", Scope.global, 0⟩).index = 1
    ∧ (((SymbolTable.new.defineSeq ["a", "b", "c"]).1.getD 1
        ⟨"", Scope.global, 0⟩).scope = Scope.global ↔ SymbolTable.new.outer = none) := by
  have h := define_indices_dense SymbolTable.new ["a", "b", "c"] "x" 1
    (by decide)
  exact ⟨h.2.2.2.2.1 rfl, h.2.2.2.2.2⟩

/-- C10: `DefineBuiltin` and `DefineFunctionName` leave `numDefinitions`
unchanged (returning the supplied index, resp. index 0), so a `Define`
before or after any number of such calls still receives the next dense
index; only `Define` advances the counter. -/
theorem builtin_function_defines_do_not_advance (t : SymbolTable) (idx : Nat)
    (bname fname dname : String) (calls : List (Option Nat × String)) :
    (t.defineBuiltin idx bname).1 = ⟨bname, .builtin, idx⟩
    ∧ (t.defineBuiltin idx bname).2.numDefinitions = t.numDefinitions
    ∧ (t.defineFunctionName fname).1 = ⟨fname, .function, 0⟩
    ∧ (t.defineFunctionName fname).2.numDefinitions = t.numDefinitions
    ∧ (t.otherDefines calls).numDefinitions = t.numDefinitions
    ∧ ((t.otherDefines calls).define dname).1.index = t.numDefinitions
    ∧ (t.define dname).1.index = t.numDefinitions
    ∧ (t.define dname).2.numDefinitions = t.numDefinitions + 1 := by
  cases t with
  | mk o s n f =>
    refine ⟨rfl, rfl, rfl, rfl, otherDefines_numDefinitions calls _, ?_, ?_, ?_⟩
    · rw [define_symbol, otherDefines_numDefinitions calls _]
    · rw [define_symbol]
    · exact define_numDefinitions _ _

/-! ## Instruction encoding

Modelled from the spec: the `code` package (opcode constants, the
`Definition` table, `Make`, `ReadUint16`) is absent from the available
sources — only its tests and its callers are present.  Opcodes are one byte;
operands are packed big-endian with per-opcode widths (2 bytes for constant
index, global index, jump target, array/hash element count; 1 byte for
local/free/builtin index and argument count).  The numeric opcode values are
not observable in the sources; they are assigned here in the order the spec
lists the catalog, with `OpConstant = 0` (the Go zero value of `Opcode`,
which is also the zero value stored in an empty `EmittedInstruction`).
Only distinctness of the values is ever used. -/

def opConstant : Nat := 0
def opTrue : Nat := 1
def opFalse : Nat := 2
def opNull : Nat := 3
def opAdd : Nat := 4
def opSub : Nat := 5
def opMul : Nat := 6
def opDiv : Nat := 7
def opEqual : Nat := 8
def opNotEqual : Nat := 9
def opGreaterThan : Nat := 10
def opMinus : Nat := 11
def opBang : Nat := 12
def opPop : Nat := 13
def opJump : Nat := 14
def opJumpNotTruthy : Nat := 15
def opGetGlobal : Nat := 16
def opSetGlobal : Nat := 17
def opGetLocal : Nat := 18
def opSetLocal : Nat := 19
def opGetBuiltin : Nat := 20
def opGetFree : Nat := 21
def opCurrentClosure : Nat := 22
def opArray : Nat := 23
def opHash : Nat := 24
def opIndex : Nat := 25
def opClosure : Nat := 26
def opCall : Nat := 27
def opReturnValue : Nat := 28
def opReturn : Nat := 29

/-- Modelled from the spec: the operand-width column of the static
`Definition` table (`none` = opcode not in the table). -/
def operandWidths (op : Nat) : Option (List Nat) :=
  if op = opConstant ∨ op = opJump ∨ op = opJumpNotTruthy ∨ op = opGetGlobal
      ∨ op = opSetGlobal ∨ op = opArray ∨ op = opHash then some [2]
  else if op = opGetLocal ∨ op = opSetLocal ∨ op = opGetBuiltin
      ∨ op = opGetFree ∨ op = opCall then some [1]
  else if op = opClosure then some [2, 1]
  else if op ≤ 29 then some []
  else none

/-- Modelled from the spec: one operand packed big-endian in its declared
width (`binary.BigEndian.PutUint16` truncates to 16 bits; a one-byte operand
is truncated to 8 bits). -/
def encodeBE (width operand : Nat) : List Nat :=
  if width = 2 then [operand / 256 % 256, operand % 256]
  else if width = 1 then [operand % 256]
  else []

/-- Modelled from the spec: `Make(op, operands…)` — one opcode byte followed
by each operand big-endian; unknown opcode or operand-count mismatch gives
an empty buffer. -/
def make (op : Nat) (operands : List Nat) : List Nat :=
  match operandWidths op with
  | none => []
  | some widths =>
    if widths.length = operands.length then
      op :: (widths.zip operands).flatMap (fun p => encodeBE p.1 p.2)
    else []

/-- Modelled from the spec: `ReadUint16` — big-endian 16-bit read at byte
offset `i` (out-of-range bytes read as 0). -/
def readUint16 (bytes : List Nat) (i : Nat) : Nat :=
  256 * bytes.getD i 0 + bytes.getD (i + 1) 0

/-! ## Value model (`object` package)

Modelled from the spec where noted: the `object` package is absent from the
available sources.  The variants and their fields follow spec §3; `True`,
`False` and `Null` singletons are represented structurally (`boolean
true/false`, `null`). -/

/-- `CompiledFunction`: instruction buffer, `NumLocals`, `NumParameters`. -/
structure CompiledFunction where
  instructions : List Nat
  numLocals : Nat
  numParameters : Nat
deriving DecidableEq, Repr

/-- Modelled from the spec: `HashKey` is derived injectively from the three
hashable variants (Integer, Boolean, String); represented as a tagged
value. -/
inductive HashKey where
  | intKey (v : Int)
  | boolKey (b : Bool)
  | stringKey (s : String)
deriving DecidableEq, Repr

/-- The value sum type (`object.Object`). -/
inductive Object where
  | integer (v : Int)
  | boolean (b : Bool)
  | null
  | string (s : String)
  | array (elements : List Object)
  | hash (pairs : List (HashKey × Object × Object))
  | compiledFunction (fn : CompiledFunction)

/-- Modelled from the spec: `Object.Type()` tags, used in error messages. -/
def Object.typeOf : Object → String
  | .integer _ => "INTEGER"
  | .boolean _ => "BOOLEAN"
  | .null => "NULL"
  | .string _ => "STRING"
  | .array _ => "ARRAY"
  | .hash _ => "HASH"
  | .compiledFunction _ => "COMPILED_FUNCTION_OBJ"

/-! ## Compiler (`compiler/compiler.go`) -/

/-- `EmittedInstruction`: opcode + position. The Go zero value is
`⟨0, 0⟩` (opcode 0 = `OpConstant`). -/
structure EmittedInstruction where
  opcode : Nat
  position : Nat
deriving DecidableEq, Repr

/-- The `Compiler` struct: instruction buffer (bytes), constant pool,
last/previous emitted instruction, symbol table. -/
structure CState where
  instructions : List Nat
  constants : List Object
  lastInstruction : EmittedInstruction
  previousInstruction : EmittedInstruction
  symbolTable : SymbolTable

/-- `New()`: empty buffers, zero-valued emitted-instruction trackers, fresh
symbol table. -/
def CState.new : CState :=
  ⟨[], [], ⟨0, 0⟩, ⟨0, 0⟩, SymbolTable.new⟩

/-- `addConstant`: append; the returned index is the new length minus 1,
i.e. the pre-append length. -/
def addConstant (st : CState) (obj : Object) : Nat × CState :=
  (st.constants.length, { st with constants := st.constants ++ [obj] })

/-- `emit`: append `Make(op, …)` to the buffer and record
`lastInstruction`/`previousInstruction` (`setLastInstruction`). The
instruction's starting position is the pre-append buffer length. -/
def emit (op : Nat) (operands : List Nat) (st : CState) : CState :=
  { st with
    instructions := st.instructions ++ make op operands
    previousInstruction := st.lastInstruction
    lastInstruction := ⟨op, st.instructions.length⟩ }

/-- `lastInstructionIsPop`. -/
def lastInstructionIsPop (st : CState) : Bool :=
  st.lastInstruction.opcode = opPop

/-- `removeLastPop`: truncate the buffer at the last instruction's position
and restore `previousInstruction` as `lastInstruction`. -/
def removeLastPop (st : CState) : CState :=
  { st with
    instructions := st.instructions.take st.lastInstruction.position
    lastInstruction := st.previousInstruction }

/-- The `if c.lastInstructionIsPop() { c.removeLastPop() }` idiom. -/
def removeIfPop (st : CState) : CState :=
  if lastInstructionIsPop st then removeLastPop st else st

/-- `replaceInstruction`: overwrite bytes in place starting at `pos`. -/
def writeBytes : List Nat → Nat → List Nat → List Nat
  | l, _, [] => l
  | l, pos, b :: bs => writeBytes (l.set pos b) (pos + 1) bs

/-- `changeOperand`: re-`Make` the instruction whose opcode byte sits at
`opPos` with the new operand and write it over the old bytes in place. -/
def changeOperand (opPos operand : Nat) (st : CState) : CState :=
  let op := st.instructions.getD opPos 0
  { st with instructions := writeBytes st.instructions opPos (make op [operand]) }

/-- The AST node categories handled by this snapshot's `Compiler.Compile`
switch (producer interface, spec §6). -/
inductive Node where
  | program (statements : List Node)
  | blockStatement (statements : List Node)
  | expressionStatement (e : Node)
  | letStatement (name : String) (value : Node)
  | identifier (value : String)
  | integerLiteral (v : Int)
  | stringLiteral (s : String)
  | boolean (b : Bool)
  | prefixExpression (op : String) (right : Node)
  | infixExpression (op : String) (left : Node) (right : Node)
  | ifExpression (condition : Node) (consequence : Node) (alternative : Option Node)
  | arrayLiteral (elements : List Node)

mutual

/-- `Compiler.Compile`, one case per `switch` arm of the source (this
snapshot has no scopes/function literals; note that the `ArrayLiteral` and
`BlockStatement` loops return `nil` — success — when a child errors, exactly
as in the source, and that `ArrayLiteral` then also skips its `OpArray`
emission). -/
def compile (node : Node) (st0 : CState) : CState × Option String :=
  match node, st0 with
  | .arrayLiteral elements, st =>
    match compileSeq elements st with
    | (st', none) => (emit opArray [elements.length] st', none)
    | (st', some _) => (st', none)
  | .blockStatement statements, st =>
    match compileSeq statements st with
    | (st', _) => (st', none)
  | .program statements, st => compileSeq statements st
  | .expressionStatement e, st =>
    match compile e st with
    | (st', some err) => (st', some err)
    | (st', none) => (emit opPop [] st', none)
  | .prefixExpression op right, st =>
    match compile right st with
    | (st', some err) => (st', some err)
    | (st', none) =>
      if op = "-" then (emit opMinus [] st', none)
      else if op = "!" then (emit opBang [] st', none)
      else (st', some ("unknown operator " ++ op))
  | .identifier value, st =>
    match st.symbolTable.resolve value with
    | (none, tbl) =>
      ({ st with symbolTable := tbl }, some ("undefined variable " ++ value))
    | (some symbol, tbl) =>
      (emit opGetGlobal [symbol.index] { st with symbolTable := tbl }, none)
  | .infixExpression op left right, st =>
    if op = "<" then
      match compile right st with
      | (st', some err) => (st', some err)
      | (st', none) =>
        match compile left st' with
        | (st'', some err) => (st'', some err)
        | (st'', none) => (emit opGreaterThan [] st'', none)
    else
      match compile left st with
      | (st', some err) => (st', some err)
      | (st', none) =>
        match compile right st' with
        | (st'', some err) => (st'', some err)
        | (st'', none) =>
          if op = "+" then (emit opAdd [] st'', none)
          else if op = "-" then (emit opSub [] st'', none)
          else if op = "*" then (emit opMul [] st'', none)
          else if op = "/" then (emit opDiv [] st'', none)
          else if op = ">" then (emit opGreaterThan [] st'', none)
          else if op = "==" then (emit opEqual [] st'', none)
          else if op = "!=" then (emit opNotEqual [] st'', none)
          else (st'', some ("unknown operator " ++ op))
  | .integerLiteral v, st =>
    let r := addConstant st (.integer v)
    (emit opConstant [r.1] r.2, none)
  | .boolean b, st =>
    if b then (emit opTrue [] st, none) else (emit opFalse [] st, none)
  | .ifExpression condition consequence alternative, st =>
    match compile condition st with
    | (st', some err) => (st', some err)
    | (s1, none) =>
      let jumpNotTruthyPos := s1.instructions.length
      let s2 := emit opJumpNotTruthy [9999] s1
      match compile consequence s2 with
      | (st', some err) => (st', some err)
      | (s3, none) =>
        let s4 := removeIfPop s3
        let jumpPos := s4.instructions.length
        let s5 := emit opJump [9999] s4
        let s6 := changeOperand jumpNotTruthyPos s5.instructions.length s5
        match compileAlternative alternative s6 with
        | (st', some err) => (st', some err)
        | (s7, none) =>
          (changeOperand jumpPos s7.instructions.length s7, none)
  | .letStatement name value, st =>
    match compile value st with
    | (st', some err) => (st', some err)
    | (st', none) =>
      let r := st'.symbolTable.define name
      (emit opSetGlobal [r.1.index] { st' with symbolTable := r.2 }, none)
  | .stringLiteral s, st =>
    let r := addConstant st (.string s)
    (emit opConstant [r.1] r.2, none)
termination_by structural node

/-- The statement/element loops (`for _, s := range …`): compile children in
order, stopping at (and reporting) the first error; the callers decide
whether to propagate or swallow it. -/
def compileSeq (nodes : List Node) (st0 : CState) : CState × Option String :=
  match nodes, st0 with
  | [], st => (st, none)
  | n :: rest, st =>
    match compile n st with
    | (st', some err) => (st', some err)
    | (st', none) => compileSeq rest st'
termination_by structural nodes

/-- The alternative-handling tail of the `IfExpression` case: emit `OpNull`
when absent, otherwise compile the alternative and drop a trailing
`OpPop`. -/
def compileAlternative (alternative : Option Node) (st0 : CState) :
    CState × Option String :=
  match alternative, st0 with
  | none, st => (emit opNull [] st, none)
  | some alt, st =>
    match compile alt st with
    | (st', some err) => (st', some err)
    | (st', none) => (removeIfPop st', none)
termination_by structural alternative

end

/-! ## Claims about the compiler's Identifier and LetStatement cases -/

/-- C2 counterexample: with `"x"` bound in the Builtin scope, compiling the
identifier emits `OpGetGlobal 0` (3 bytes), not `OpGetBuiltin 0`: this
snapshot's Identifier case ignores the resolved symbol's scope. -/
theorem identifier_builtin_emits_getglobal :
    (compile (.identifier "x")
        { CState.new with
          symbolTable := .mk none [("x", ⟨"x", .builtin, 0⟩)] 0 [] }).2 = none
    ∧ (compile (.identifier "x")
        { CState.new with
          symbolTable := .mk none [("x", ⟨"x", .builtin, 0⟩)] 0 [] }).1.instructions
        = [opGetGlobal, 0, 0]
    ∧ (compile (.identifier "x")
        { CState.new with
          symbolTable := .mk none [("x", ⟨"x", .builtin, 0⟩)] 0 [] }).1.instructions
        ≠ [opGetBuiltin, 0] := by
  refine ⟨rfl, rfl, ?_⟩
  decide

/-- C2 amended: for every Identifier the compiler calls `Resolve` and, on a
hit, emits `OpGetGlobal` with the symbol's index regardless of the symbol's
scope; a miss fails compilation with "undefined variable name". -/
theorem identifier_resolve_and_emit (st : CState) (name : String)
    (sym : Symbol) (tbl : SymbolTable) :
    (st.symbolTable.resolve name = (some sym, tbl) →
      compile (.identifier name) st
        = (emit opGetGlobal [sym.index] { st with symbolTable := tbl }, none))
    ∧ (st.symbolTable.resolve name = (none, tbl) →
      compile (.identifier name) st
        = ({ st with symbolTable := tbl },
           some ("undefined variable " ++ name))) := by
  constructor
  · intro h
    simp only [compile]
    rw [h]
  · intro h
    simp only [compile]
    rw [h]

/-- Witness for `identifier_resolve_and_emit`: a global "x" at index 0 and
an unresolvable "y". -/
theorem identifier_resolve_and_emit_wit :
    compile (.identifier "x")
        { CState.new with symbolTable := .mk none [("x", ⟨"x", .global, 0⟩)] 1 [] }
      = (emit opGetGlobal [0]
          { CState.new with symbolTable := .mk none [("x", ⟨"x", .global, 0⟩)] 1 [] },
         none)
    ∧ compile (.identifier "y") CState.new
      = (CState.new, some ("undefined variable " ++ "y")) := by
  constructor
  · exact (identifier_resolve_and_emit
      { CState.new with symbolTable := .mk none [("x", ⟨"x", .global, 0⟩)] 1 [] }
      "x" ⟨"x", .global, 0⟩ (.mk none [("x", ⟨"x", .global, 0⟩)] 1 [])).1 rfl
  · exact (identifier_resolve_and_emit CState.new "y" ⟨"", .global, 0⟩
      SymbolTable.new).2 rfl

/-- C3 counterexample: in `let x = x;` the value expression is compiled
before the name is defined, so compilation fails with "undefined variable
x" and nothing is emitted — the name is not resolvable while its own value
is being compiled. -/
theorem let_value_compiled_before_define :
    (compile (.letStatement "x" (.identifier "x")) CState.new).2
        = some "undefined variable x"
    ∧ (compile (.letStatement "x" (.identifier "x")) CState.new).1.instructions
        = [] := by
  exact ⟨rfl, rfl⟩

/-- C3 amended: for every LetStatement the compiler first compiles the value
expression, then defines the name, then emits `OpSetGlobal` with the
symbol's index (unconditionally — there is no Local path in this
snapshot). -/
theorem let_compiles_value_then_defines (st st' : CState) (name : String)
    (value : Node) (h : compile value st = (st', none)) :
    compile (.letStatement name value) st
      = (emit opSetGlobal [(st'.symbolTable.define name).1.index]
          { st' with symbolTable := (st'.symbolTable.define name).2 }, none) := by
  simp only [compile]
  rw [h]

/-! ## Buffer lemmas for back-patching -/

theorem getD_take_of_lt (l : List Nat) (n i : Nat) (h : i < n) :
    (l.take n).getD i 0 = l.getD i 0 := by
  rw [List.getD_eq_getElem?_getD, List.getD_eq_getElem?_getD,
    List.getElem?_take_of_lt h]

theorem getD_set_ne (l : List Nat) (p i v : Nat) (h : p ≠ i) :
    (l.set p v).getD i 0 = l.getD i 0 := by
  rw [List.getD_eq_getElem?_getD, List.getD_eq_getElem?_getD,
    List.getElem?_set_ne h]

theorem getD_set_self (l : List Nat) (p v : Nat) (h : p < l.length) :
    (l.set p v).getD p 0 = v := by
  rw [List.getD_eq_getElem?_getD, List.getElem?_set_self h]
  rfl

theorem getD_append_left (l m : List Nat) (i : Nat) (h : i < l.length) :
    (l ++ m).getD i 0 = l.getD i 0 :=
  List.getD_append l m 0 i h

theorem getD_append_right (l m : List Nat) (k : Nat) :
    (l ++ m).getD (l.length + k) 0 = m.getD k 0 := by
  rw [List.getD_eq_getElem?_getD, List.getD_eq_getElem?_getD,
    List.getElem?_append_right (by omega)]
  congr 2
  omega

theorem writeBytes_length (bs : List Nat) (l : List Nat) (p : Nat) :
    (writeBytes l p bs).length = l.length := by
  induction bs generalizing l p with
  | nil => rfl
  | cons b rest ih => rw [writeBytes, ih, List.length_set]

theorem writeBytes_getD_lt (bs : List Nat) (l : List Nat) (p i : Nat)
    (h : i < p) : (writeBytes l p bs).getD i 0 = l.getD i 0 := by
  induction bs generalizing l p with
  | nil => rfl
  | cons b rest ih =>
    rw [writeBytes, ih _ _ (by omega), getD_set_ne _ _ _ _ (by omega)]

theorem writeBytes_getD_ge (bs : List Nat) (l : List Nat) (p i : Nat)
    (h : p + bs.length ≤ i) : (writeBytes l p bs).getD i 0 = l.getD i 0 := by
  induction bs generalizing l p with
  | nil => rfl
  | cons b rest ih =>
    rw [writeBytes, ih _ _ (by simp at h; omega),
      getD_set_ne _ _ _ _ (by simp at h; omega)]

theorem writeBytes_getD_at (bs : List Nat) (l : List Nat) (p k : Nat)
    (hk : k < bs.length) (hl : p + bs.length ≤ l.length) :
    (writeBytes l p bs).getD (p + k) 0 = bs.getD k 0 := by
  induction bs generalizing l p k with
  | nil => simp at hk
  | cons b rest ih =>
    cases k with
    | zero =>
      rw [writeBytes]
      rw [writeBytes_getD_lt _ _ _ _ (by omega)]
      simp only [Nat.add_zero, List.getD_cons_zero]
      exact getD_set_self _ _ _ (by simp at hl; omega)
    | succ j =>
      rw [writeBytes, show p + (j + 1) = (p + 1) + j by omega,
        ih _ _ _ (by simpa using hk) (by simp at hl ⊢; omega)]
      rfl

/-! ## The buffer-extension relation

`Extends a b` records what any compilation step from state `a` to state `b`
preserves: the buffer only grows past the prefix `a` had already emitted,
and the `lastInstruction` / `previousInstruction` trackers either survive
unchanged or point into the freshly emitted region.  This is the invariant
that makes `removeLastPop` (which truncates at `lastInstruction.position`)
and `changeOperand` (which overwrites bytes in place) safe for the
back-patching scheme of the `IfExpression` case. -/

structure Extends (a b : CState) : Prop where
  len_le : a.instructions.length ≤ b.instructions.length
  prefix_eq : ∀ i, i < a.instructions.length →
    b.instructions.getD i 0 = a.instructions.getD i 0
  last_ok : b.lastInstruction = a.lastInstruction
    ∨ a.instructions.length ≤ b.lastInstruction.position
  prev_ok : (b.previousInstruction = a.previousInstruction
      ∧ b.lastInstruction = a.lastInstruction)
    ∨ b.previousInstruction = a.lastInstruction
    ∨ a.instructions.length ≤ b.previousInstruction.position

theorem extendsRefl (a : CState) : Extends a a :=
  ⟨le_refl _, fun _ _ => rfl, Or.inl rfl, Or.inl ⟨rfl, rfl⟩⟩

theorem extendsTrans {a b c : CState} (hab : Extends a b) (hbc : Extends b c) :
    Extends a c := by
  refine ⟨le_trans hab.len_le hbc.len_le, ?_, ?_, ?_⟩
  · intro i hi
    rw [hbc.prefix_eq i (lt_of_lt_of_le hi hab.len_le), hab.prefix_eq i hi]
  · rcases hbc.last_ok with h | h
    · rw [h]
      exact hab.last_ok
    · exact Or.inr (le_trans hab.len_le h)
  · rcases hbc.prev_ok with ⟨h1, h2⟩ | h | h
    · rw [h1, h2]
      rcases hab.prev_ok with ⟨g1, g2⟩ | g | g
      · exact Or.inl ⟨g1, g2⟩
      · exact Or.inr (Or.inl g)
      · exact Or.inr (Or.inr g)
    · rw [h]
      rcases hab.last_ok with h' | h'
      · exact Or.inr (Or.inl h')
      · exact Or.inr (Or.inr h')
    · exact Or.inr (Or.inr (le_trans hab.len_le h))

theorem extends_emit (op : Nat) (operands : List Nat) (st : CState) :
    Extends st (emit op operands st) := by
  refine ⟨by simp [emit], ?_, Or.inr (le_refl _), Or.inr (Or.inl rfl)⟩
  intro i hi
  exact getD_append_left _ _ _ hi

theorem extends_set_table (st : CState) (tbl : SymbolTable) :
    Extends st { st with symbolTable := tbl } :=
  ⟨le_refl _, fun _ _ => rfl, Or.inl rfl, Or.inl ⟨rfl, rfl⟩⟩

theorem extends_add_constant (st : CState) (obj : Object) :
    Extends st (addConstant st obj).2 :=
  ⟨le_refl _, fun _ _ => rfl, Or.inl rfl, Or.inl ⟨rfl, rfl⟩⟩

theorem extends_changeOperand {a b : CState} (pos v : Nat) (hab : Extends a b)
    (hpos : a.instructions.length ≤ pos) : Extends a (changeOperand pos v b) := by
  refine ⟨?_, ?_, hab.last_ok, hab.prev_ok⟩
  · rw [changeOperand]
    simpa only [writeBytes_length] using hab.len_le
  · intro i hi
    rw [changeOperand]
    simp only []
    rw [writeBytes_getD_lt _ _ _ _ (by omega)]
    exact hab.prefix_eq i hi

theorem extends_removeIfPop {a b : CState} (hab : Extends a b)
    (ha : a.lastInstruction.opcode ≠ opPop) : Extends a (removeIfPop b) := by
  rw [removeIfPop]
  by_cases hp : lastInstructionIsPop b
  · rw [if_pos hp]
    have hbpop : b.lastInstruction.opcode = opPop := by
      simpa [lastInstructionIsPop] using hp
    have hfresh : a.instructions.length ≤ b.lastInstruction.position := by
      rcases hab.last_ok with h | h
      · exact absurd (h ▸ hbpop) ha
      · exact h
    have hprev : b.previousInstruction = a.lastInstruction
        ∨ a.instructions.length ≤ b.previousInstruction.position := by
      rcases hab.prev_ok with ⟨h1, h2⟩ | h | h
      · exact absurd (h2 ▸ hbpop) ha
      · exact Or.inl h
      · exact Or.inr h
    have hlen := hab.len_le
    refine ⟨?_, ?_, ?_, ?_⟩
    · rw [removeLastPop]
      simp only [List.length_take]
      omega
    · intro i hi
      rw [removeLastPop]
      simp only []
      rw [getD_take_of_lt _ _ _ (by omega)]
      exact hab.prefix_eq i hi
    · rw [removeLastPop]
      exact hprev
    · rw [removeLastPop]
      simp only []
      rcases hprev with h | h
      · exact Or.inr (Or.inl h)
      · exact Or.inr (Or.inr h)
  · rw [if_neg hp]
    exact hab

mutual

/-- Every `Compile` call only extends the current scope's buffer: the bytes
already emitted survive, and the emitted-instruction trackers stay inside
the new region. -/
theorem compile_extends (n : Node) (st : CState) : Extends st (compile n st).1 := by
  cases n with
  | arrayLiteral elements =>
    have h := compileSeq_extends elements st
    simp only [compile]
    rcases hc : compileSeq elements st with ⟨st1, err⟩
    rw [hc] at h
    cases err with
    | none => exact extendsTrans h (extends_emit _ _ _)
    | some e => exact h
  | blockStatement statements =>
    have h := compileSeq_extends statements st
    simp only [compile]
    rcases hc : compileSeq statements st with ⟨st1, err⟩
    rw [hc] at h
    exact h
  | program statements =>
    simpa only [compile] using compileSeq_extends statements st
  | expressionStatement e =>
    have h := compile_extends e st
    simp only [compile]
    rcases hc : compile e st with ⟨st1, err⟩
    rw [hc] at h
    cases err with
    | none => exact extendsTrans h (extends_emit _ _ _)
    | some msg => exact h
  | prefixExpression op right =>
    have h := compile_extends right st
    simp only [compile]
    rcases hc : compile right st with ⟨st1, err⟩
    rw [hc] at h
    cases err with
    | some msg => exact h
    | none =>
      by_cases h1 : op = "-"
      · simp only [h1, if_pos rfl]
        exact extendsTrans h (extends_emit _ _ _)
      · by_cases h2 : op = "!"
        · simp only [if_neg h1, h2, if_pos rfl]
          exact extendsTrans h (extends_emit _ _ _)
        · simp only [if_neg h1, if_neg h2]
          exact h
  | identifier value =>
    simp only [compile]
    rcases hc : st.symbolTable.resolve value with ⟨osym, tbl⟩
    cases osym with
    | none => exact extends_set_table st tbl
    | some symbol =>
      exact extendsTrans (extends_set_table st tbl) (extends_emit _ _ _)
  | infixExpression op left right =>
    simp only [compile]
    by_cases hlt : op = "<"
    · rw [if_pos hlt]
      split
      next st1 err heq =>
        have h := compile_extends right st
        rw [heq] at h
        exact h
      next st1 heq =>
        have h := compile_extends right st
        rw [heq] at h
        split
        next st2 err heq2 =>
          have h2 := compile_extends left st1
          rw [heq2] at h2
          exact extendsTrans h h2
        next st2 heq2 =>
          have h2 := compile_extends left st1
          rw [heq2] at h2
          exact extendsTrans h (extendsTrans h2 (extends_emit _ _ _))
    · rw [if_neg hlt]
      split
      next st1 err heq =>
        have h := compile_extends left st
        rw [heq] at h
        exact h
      next st1 heq =>
        have h := compile_extends left st
        rw [heq] at h
        split
        next st2 err heq2 =>
          have h2 := compile_extends right st1
          rw [heq2] at h2
          exact extendsTrans h h2
        next st2 heq2 =>
          have h2 := compile_extends right st1
          rw [heq2] at h2
          have hh := extendsTrans h h2
          have he : ∀ o : Nat, Extends st (emit o [] st2) :=
            fun o => extendsTrans hh (extends_emit o [] st2)
          by_cases c1 : op = "+"
          · rw [if_pos c1]
            exact he opAdd
          rw [if_neg c1]
          by_cases c2 : op = "-"
          · rw [if_pos c2]
            exact he opSub
          rw [if_neg c2]
          by_cases c3 : op = "*"
          · rw [if_pos c3]
            exact he opMul
          rw [if_neg c3]
          by_cases c4 : op = "/"
          · rw [if_pos c4]
            exact he opDiv
          rw [if_neg c4]
          by_cases c5 : op = ">"
          · rw [if_pos c5]
            exact he opGreaterThan
          rw [if_neg c5]
          by_cases c6 : op = "=="
          · rw [if_pos c6]
            exact he opEqual
          rw [if_neg c6]
          by_cases c7 : op = "!="
          · rw [if_pos c7]
            exact he opNotEqual
          rw [if_neg c7]
          exact hh
  | integerLiteral v =>
    simp only [compile]
    exact extendsTrans (extends_add_constant st _) (extends_emit _ _ _)
  | boolean b =>
    simp only [compile]
    cases b with
    | true => simpa using extends_emit opTrue [] st
    | false => simpa using extends_emit opFalse [] st
  | ifExpression condition consequence alternative =>
    simp only [compile]
    split
    next s1 err heq =>
      have e1 := compile_extends condition st
      rw [heq] at e1
      exact e1
    next s1 heq =>
      have e1 := compile_extends condition st
      rw [heq] at e1
      have e2 : Extends st (emit opJumpNotTruthy [9999] s1) :=
        extendsTrans e1 (extends_emit _ _ _)
      split
      next s3 err heq3 =>
        have e3 := compile_extends consequence (emit opJumpNotTruthy [9999] s1)
        rw [heq3] at e3
        exact extendsTrans e2 e3
      next s3 heq3 =>
        have e3 := compile_extends consequence (emit opJumpNotTruthy [9999] s1)
        rw [heq3] at e3
        have hne : (emit opJumpNotTruthy [9999] s1).lastInstruction.opcode
            ≠ opPop := by
          simp [emit, opJumpNotTruthy, opPop]
        have e4 : Extends st (removeIfPop s3) :=
          extendsTrans e2 (extends_removeIfPop e3 hne)
        have e5 : Extends st (emit opJump [9999] (removeIfPop s3)) :=
          extendsTrans e4 (extends_emit _ _ _)
        have e6 := extends_changeOperand
          s1.instructions.length
          (emit opJump [9999] (removeIfPop s3)).instructions.length e5 e1.len_le
        have hne2 : (changeOperand s1.instructions.length
            (emit opJump [9999] (removeIfPop s3)).instructions.length
            (emit opJump [9999] (removeIfPop s3))).lastInstruction.opcode
            ≠ opPop := by
          simp [changeOperand, emit, opJump, opPop]
        have e7 := compileAlternative_extends alternative _ hne2
        split
        next s7 err heq7 =>
          rw [heq7] at e7
          exact extendsTrans e6 e7
        next s7 heq7 =>
          rw [heq7] at e7
          exact extends_changeOperand _ _ (extendsTrans e6 e7) e4.len_le
  | letStatement name value =>
    have h := compile_extends value st
    simp only [compile]
    rcases hc : compile value st with ⟨st1, err⟩
    rw [hc] at h
    cases err with
    | some msg => exact h
    | none =>
      exact extendsTrans h
        (extendsTrans (extends_set_table st1 _) (extends_emit _ _ _))
  | stringLiteral s =>
    simp only [compile]
    exact extendsTrans (extends_add_constant st _) (extends_emit _ _ _)

/-- The compile loop over child nodes only extends the buffer. -/
theorem compileSeq_extends (ns : List Node) (st : CState) :
    Extends st (compileSeq ns st).1 := by
  cases ns with
  | nil => exact extendsRefl st
  | cons n rest =>
    have h := compile_extends n st
    simp only [compileSeq]
    rcases hc : compile n st with ⟨st1, err⟩
    rw [hc] at h
    cases err with
    | some msg => exact h
    | none => exact extendsTrans h (compileSeq_extends rest st1)

/-- The alternative tail of the IfExpression case only extends the buffer,
provided the state it starts from does not have a pending `OpPop` as its
last instruction (it never does: the `OpJump` emission precedes it). -/
theorem compileAlternative_extends (alternative : Option Node) (st : CState)
    (ha : st.lastInstruction.opcode ≠ opPop) :
    Extends st (compileAlternative alternative st).1 := by
  cases alternative with
  | none => exact extends_emit _ _ _
  | some alt =>
    have h := compile_extends alt st
    simp only [compileAlternative]
    rcases hc : compile alt st with ⟨st1, err⟩
    rw [hc] at h
    cases err with
    | some msg => exact h
    | none => exact extends_removeIfPop h ha

end

theorem make_jnt (v : Nat) :
    make opJumpNotTruthy [v] = [opJumpNotTruthy, v / 256 % 256, v % 256] := rfl

theorem make_jump (v : Nat) :
    make opJump [v] = [opJump, v / 256 % 256, v % 256] := rfl

/-- C6: after compiling any IfExpression whose parts compile successfully,
the `OpJumpNotTruthy` operand (read back from the final buffer) equals the
byte offset just after the consequence including the emitted `OpJump`
(`afterCons`), and the `OpJump` operand equals the byte offset just after
the alternative (or the `OpNull` replacing it) — which is the final buffer
length; the trailing `OpPop` removals (`removeIfPop`) happen before the
respective patches, and each patch rewrites only the three bytes of its jump
instruction in place.  (The operands are exact whenever the buffer stays
below 2^16 bytes, the operand width.) -/
theorem if_backpatch (condition consequence : Node) (alternative : Option Node)
    (st : CState) {s1 s3 s7 : CState} {jnPos jmpPos afterCons afterAlt : Nat}
    {s4 s5 s6 s8 : CState}
    (h1 : compile condition st = (s1, none))
    (hjn : jnPos = s1.instructions.length)
    (h3 : compile consequence (emit opJumpNotTruthy [9999] s1) = (s3, none))
    (h4 : s4 = removeIfPop s3)
    (hjm : jmpPos = s4.instructions.length)
    (h5 : s5 = emit opJump [9999] s4)
    (hac : afterCons = s5.instructions.length)
    (h6 : s6 = changeOperand jnPos afterCons s5)
    (h7 : compileAlternative alternative s6 = (s7, none))
    (haa : afterAlt = s7.instructions.length)
    (h8 : s8 = changeOperand jmpPos afterAlt s7) :
    compile (.ifExpression condition consequence alternative) st = (s8, none)
    ∧ s8.instructions.length = afterAlt
    ∧ afterCons = jmpPos + 3
    ∧ s8.instructions.getD jnPos 0 = opJumpNotTruthy
    ∧ s8.instructions.getD jmpPos 0 = opJump
    ∧ (afterAlt < 65536 →
        readUint16 s8.instructions (jnPos + 1) = afterCons
        ∧ readUint16 s8.instructions (jmpPos + 1) = afterAlt)
    ∧ (∀ i, i < jmpPos ∨ jmpPos + 3 ≤ i →
        s8.instructions.getD i 0 = s7.instructions.getD i 0) := by
  have e23 : Extends (emit opJumpNotTruthy [9999] s1) s3 := by
    have h := compile_extends consequence (emit opJumpNotTruthy [9999] s1)
    rw [h3] at h
    exact h
  have hs2len : (emit opJumpNotTruthy [9999] s1).instructions.length
      = jnPos + 3 := by
    rw [hjn]
    simp [emit, make_jnt]
  have e24 : Extends (emit opJumpNotTruthy [9999] s1) s4 := by
    rw [h4]
    have hne : (opJumpNotTruthy : Nat) ≠ opPop := by decide
    exact extends_removeIfPop e23 hne
  have hjm3 : jnPos + 3 ≤ jmpPos := by
    rw [hjm]
    calc jnPos + 3 = (emit opJumpNotTruthy [9999] s1).instructions.length :=
          hs2len.symm
      _ ≤ s4.instructions.length := e24.len_le
  have hbyteJN4 : s4.instructions.getD jnPos 0 = opJumpNotTruthy := by
    rw [e24.prefix_eq jnPos (by omega)]
    rw [hjn]
    show (s1.instructions ++ make opJumpNotTruthy [9999]).getD
      s1.instructions.length 0 = opJumpNotTruthy
    have h := getD_append_right s1.instructions (make opJumpNotTruthy [9999]) 0
    simpa [make_jnt, opJumpNotTruthy] using h
  have hs5len : s5.instructions.length = jmpPos + 3 := by
    rw [h5, hjm]
    simp [emit, make_jump]
  have hc3 : afterCons = jmpPos + 3 := by rw [hac, hs5len]
  have hbyteJN5 : s5.instructions.getD jnPos 0 = opJumpNotTruthy := by
    rw [h5]
    show (s4.instructions ++ make opJump [9999]).getD jnPos 0 = opJumpNotTruthy
    rw [getD_append_left _ _ _ (by omega)]
    exact hbyteJN4
  have hbyteJMP5 : s5.instructions.getD jmpPos 0 = opJump := by
    rw [h5, hjm]
    show (s4.instructions ++ make opJump [9999]).getD
      s4.instructions.length 0 = opJump
    have h := getD_append_right s4.instructions (make opJump [9999]) 0
    simpa [make_jump, opJump] using h
  have hs6ins : s6.instructions = writeBytes s5.instructions jnPos
      [opJumpNotTruthy, afterCons / 256 % 256, afterCons % 256] := by
    rw [h6]
    simp only [changeOperand]
    rw [hbyteJN5, make_jnt]
  have hs6len : s6.instructions.length = afterCons := by
    rw [hs6ins, writeBytes_length, hac]
  have hbound6 : jnPos + 3 ≤ s5.instructions.length := by omega
  have hs6jn : s6.instructions.getD jnPos 0 = opJumpNotTruthy := by
    rw [hs6ins]
    have h := writeBytes_getD_at
      [opJumpNotTruthy, afterCons / 256 % 256, afterCons % 256]
      s5.instructions jnPos 0 (by simp) (by simpa using hbound6)
    simpa using h
  have hs6jn1 : s6.instructions.getD (jnPos + 1) 0 = afterCons / 256 % 256 := by
    rw [hs6ins]
    have h := writeBytes_getD_at
      [opJumpNotTruthy, afterCons / 256 % 256, afterCons % 256]
      s5.instructions jnPos 1 (by simp) (by simpa using hbound6)
    simpa using h
  have hs6jn2 : s6.instructions.getD (jnPos + 2) 0 = afterCons % 256 := by
    rw [hs6ins]
    have h := writeBytes_getD_at
      [opJumpNotTruthy, afterCons / 256 % 256, afterCons % 256]
      s5.instructions jnPos 2 (by simp) (by simpa using hbound6)
    simpa using h
  have hs6jmp : s6.instructions.getD jmpPos 0 = opJump := by
    rw [hs6ins, writeBytes_getD_ge _ _ _ _ (by simp; omega)]
    exact hbyteJMP5
  have hs6opcode : s6.lastInstruction.opcode = opJump := by
    rw [h6, h5]
    rfl
  have e67 : Extends s6 s7 := by
    have h := compileAlternative_extends alternative s6 (by rw [hs6opcode]; decide)
    rw [h7] at h
    exact h
  have hlen67 : afterCons ≤ afterAlt := by
    rw [haa, ← hs6len]
    exact e67.len_le
  have hs7jn : s7.instructions.getD jnPos 0 = opJumpNotTruthy := by
    rw [e67.prefix_eq jnPos (by omega)]
    exact hs6jn
  have hs7jn1 : s7.instructions.getD (jnPos + 1) 0 = afterCons / 256 % 256 := by
    rw [e67.prefix_eq (jnPos + 1) (by omega)]
    exact hs6jn1
  have hs7jn2 : s7.instructions.getD (jnPos + 2) 0 = afterCons % 256 := by
    rw [e67.prefix_eq (jnPos + 2) (by omega)]
    exact hs6jn2
  have hs7jmp : s7.instructions.getD jmpPos 0 = opJump := by
    rw [e67.prefix_eq jmpPos (by omega)]
    exact hs6jmp
  have hs8ins : s8.instructions = writeBytes s7.instructions jmpPos
      [opJump, afterAlt / 256 % 256, afterAlt % 256] := by
    rw [h8]
    simp only [changeOperand]
    rw [hs7jmp, make_jump]
  have hs8len : s8.instructions.length = afterAlt := by
    rw [hs8ins, writeBytes_length, haa]
  have hbound8 : jmpPos + 3 ≤ s7.instructions.length := by omega
  have hs8jn : s8.instructions.getD jnPos 0 = opJumpNotTruthy := by
    rw [hs8ins, writeBytes_getD_lt _ _ _ _ (by omega)]
    exact hs7jn
  have hs8jn1 : s8.instructions.getD (jnPos + 1) 0 = afterCons / 256 % 256 := by
    rw [hs8ins, writeBytes_getD_lt _ _ _ _ (by omega)]
    exact hs7jn1
  have hs8jn2 : s8.instructions.getD (jnPos + 2) 0 = afterCons % 256 := by
    rw [hs8ins, writeBytes_getD_lt _ _ _ _ (by omega)]
    exact hs7jn2
  have hs8jmp : s8.instructions.getD jmpPos 0 = opJump := by
    rw [hs8ins]
    have h := writeBytes_getD_at [opJump, afterAlt / 256 % 256, afterAlt % 256]
      s7.instructions jmpPos 0 (by simp) (by simpa using hbound8)
    simpa using h
  have hs8jmp1 : s8.instructions.getD (jmpPos + 1) 0 = afterAlt / 256 % 256 := by
    rw [hs8ins]
    have h := writeBytes_getD_at [opJump, afterAlt / 256 % 256, afterAlt % 256]
      s7.instructions jmpPos 1 (by simp) (by simpa using hbound8)
    simpa using h
  have hs8jmp2 : s8.instructions.getD (jmpPos + 2) 0 = afterAlt % 256 := by
    rw [hs8ins]
    have h := writeBytes_getD_at [opJump, afterAlt / 256 % 256, afterAlt % 256]
      s7.instructions jmpPos 2 (by simp) (by simpa using hbound8)
    simpa using h
  refine ⟨?_, hs8len, hc3, hs8jn, hs8jmp, ?_, ?_⟩
  · simp only [compile, h1, h3]
    rw [← hjn, ← h4, ← h5, ← hac, ← h6, h7, ← hjm]
    show (changeOperand jmpPos s7.instructions.length s7, none) = (s8, none)
    rw [← haa, ← h8]
  · intro hlim
    constructor
    · rw [readUint16, hs8jn1]
      have h2 : s8.instructions.getD (jnPos + 1 + 1) 0 = afterCons % 256 := hs8jn2
      rw [h2]
      omega
    · rw [readUint16, hs8jmp1]
      have h2 : s8.instructions.getD (jmpPos + 1 + 1) 0 = afterAlt % 256 := hs8jmp2
      rw [h2]
      omega
  · intro i hi
    rw [hs8ins]
    rcases hi with hi | hi
    · exact writeBytes_getD_lt _ _ _ _ hi
    · exact writeBytes_getD_ge _ _ _ _ (by simp; omega)

/-- Witness for `if_backpatch`: `if (true) { 10 } else { 20 }` — the
`OpJumpNotTruthy` at offset 1 is patched to 10 and the `OpJump` at offset 7
to 13, matching the expected layout `OpTrue, OpJumpNotTruthy 10,
OpConstant 0, OpJump 13, OpConstant 1`. -/
theorem if_backpatch_wit :
    readUint16 ((compile (.ifExpression (.boolean true)
        (.blockStatement [.expressionStatement (.integerLiteral 10)])
        (some (.blockStatement [.expressionStatement (.integerLiteral 20)])))
        CState.new).1.instructions) 2 = 10
    ∧ readUint16 ((compile (.ifExpression (.boolean true)
        (.blockStatement [.expressionStatement (.integerLiteral 10)])
        (some (.blockStatement [.expressionStatement (.integerLiteral 20)])))
        CState.new).1.instructions) 8 = 13 := by
  have h := if_backpatch (.boolean true)
    (.blockStatement [.expressionStatement (.integerLiteral 10)])
    (some (.blockStatement [.expressionStatement (.integerLiteral 20)]))
    CState.new rfl rfl rfl rfl rfl rfl rfl rfl rfl rfl rfl
  have hread := h.2.2.2.2.2.1 (by decide)
  rw [h.1]
  exact ⟨hread.1, hread.2⟩

/-- Witness for `let_compiles_value_then_defines`: `let y = 5;`. -/
theorem let_compiles_value_then_defines_wit :
    compile (.letStatement "y" (.integerLiteral 5)) CState.new
      = (emit opSetGlobal
          [(((compile (.integerLiteral 5) CState.new).1.symbolTable.define "y").1).index]
          { (compile (.integerLiteral 5) CState.new).1 with
            symbolTable :=
              ((compile (.integerLiteral 5) CState.new).1.symbolTable.define "y").2 },
         none) := by
  exact let_compiles_value_then_defines CState.new
    (compile (.integerLiteral 5) CState.new).1 "y" (.integerLiteral 5) rfl

/-! ## Virtual machine (`vm/vm.go`)

The VM state follows `vm.go`: `sp` and indices are Go `int`s, embedded as
`Int`; the fixed-size backing arrays (stack of `StackSize = 2048`, globals
of 65536, frames of 1024) are embedded as total functions from `Int`
initialized to the nil/zero value (`Object.null`, resp. a zero frame), with
the same bounds checks the source performs (only `push` checks a bound).
In this snapshot `vm.go` builds frames directly from `*object.CompiledFunction`
(`NewFrame(mainFn, 0)`, `NewFrame(fn, …)`); the `Frame` embedding follows
that usage. -/

/-- Pointwise update of a function-backed array. -/
def upd {α : Type} (f : Int → α) (i : Int) (v : α) : Int → α :=
  fun j => if j = i then v else f j

/-- `Frame`: function, instruction pointer (starts at -1), base pointer. -/
structure Frame where
  fn : CompiledFunction
  ip : Int
  basePointer : Int

/-- The VM struct: constants, globals, value stack + `sp` (next free slot),
frame stack + `framesIndex`. -/
structure VMState where
  constants : List Object
  globals : Int → Object
  stack : Int → Object
  sp : Int
  frames : Int → Frame
  framesIndex : Int

/-- `vm.currentFrame()`: `frames[framesIndex-1]`. -/
def currentFrame (vm : VMState) : Frame := vm.frames (vm.framesIndex - 1)

/-- Overwrite the current frame's `ip`. -/
def setFrameIp (vm : VMState) (ip : Int) : VMState :=
  { vm with
    frames := upd vm.frames (vm.framesIndex - 1) ({ currentFrame vm with ip := ip }) }

/-- `vm.currentFrame().ip += d`. -/
def advanceIp (d : Int) (vm : VMState) : VMState :=
  setFrameIp vm ((currentFrame vm).ip + d)

/-- `vm.push`: error "stack overflow" at `sp >= StackSize`, else write at
`sp` and increment. -/
def push (vm : VMState) (o : Object) : VMState × Option String :=
  if 2048 ≤ vm.sp then (vm, some "stack overflow")
  else ({ vm with stack := upd vm.stack vm.sp o, sp := vm.sp + 1 }, none)

/-- `vm.pop`: read `stack[sp-1]`, decrement `sp`. -/
def popVM (vm : VMState) : Object × VMState :=
  (vm.stack (vm.sp - 1), { vm with sp := vm.sp - 1 })

/-- `vm.pushFrame`. -/
def pushFrame (vm : VMState) (f : Frame) : VMState :=
  { vm with
    frames := upd vm.frames vm.framesIndex f
    framesIndex := vm.framesIndex + 1 }

/-- `vm.popFrame`: decrement `framesIndex` and return the frame there. -/
def popFrame (vm : VMState) : Frame × VMState :=
  (vm.frames (vm.framesIndex - 1), { vm with framesIndex := vm.framesIndex - 1 })

/-- Go `int64` two's-complement wraparound. -/
def wrap64 (x : Int) : Int := (x + 2 ^ 63) % 2 ^ 64 - 2 ^ 63

/-- `vm.buildArray`: the elements at `stack[startIndex..endIndex)` in
order. -/
def buildArray (vm : VMState) (startIndex endIndex : Int) : Object :=
  .array ((List.range (endIndex - startIndex).toNat).map
    (fun k => vm.stack (startIndex + k)))

/-- Modelled from the spec: which values are hashable (`object.Hashable`) and
their derived `HashKey`s. -/
def hashKeyOf : Object → Option HashKey
  | .integer v => some (.intKey v)
  | .boolean b => some (.boolKey b)
  | .string s => some (.stringKey s)
  | _ => none

/-- Go map read `hashObject.Pairs[key]` (first matching entry). -/
def hashGet (pairs : List (HashKey × Object × Object)) (k : HashKey) :
    Option (Object × Object) :=
  (pairs.find? (fun e => e.1 = k)).map (fun e => e.2)

/-- The `vm.buildHash` loop (`for i := startIndex; i < endIndex; i += 2`),
with the iteration count made explicit; insertion conses in front, giving
Go-map overwrite semantics. -/
def buildHashPairs (vm : VMState) :
    Nat → Int → List (HashKey × Object × Object) →
    List (HashKey × Object × Object) × Option String
  | 0, _, acc => (acc, none)
  | remaining + 1, i, acc =>
    let key := vm.stack i
    let value := vm.stack (i + 1)
    match hashKeyOf key with
    | none => (acc, some ("unusable as hash key " ++ key.typeOf))
    | some hk => buildHashPairs vm remaining (i + 2) ((hk, key, value) :: acc)

/-- `vm.buildHash`. -/
def buildHash (vm : VMState) (startIndex endIndex : Int) :
    Object × Option String :=
  match buildHashPairs vm (((endIndex - startIndex).toNat + 1) / 2)
      startIndex [] with
  | (pairs, none) => (.hash pairs, none)
  | (_, some e) => (.null, some e)

/-- `vm.callFunction`: type-assert the callee at `stack[sp-1-numArgs]` to a
compiled function (else "calling non-function"); check the arity (else
"wrong number of arguments: want=…, got=…"); push a frame with
`basePointer = sp - numArgs` and set `sp = basePointer + NumLocals`. -/
def callFunction (vm : VMState) (numArgs : Nat) : VMState × Option String :=
  match vm.stack (vm.sp - 1 - (numArgs : Int)) with
  | .compiledFunction fn =>
    if fn.numParameters ≠ numArgs then
      (vm, some ("wrong number of arguments: want=" ++ toString fn.numParameters
        ++ ", got=" ++ toString numArgs))
    else
      let frame : Frame := ⟨fn, -1, vm.sp - (numArgs : Int)⟩
      let vm' := pushFrame vm frame
      ({ vm' with sp := frame.basePointer + (fn.numLocals : Int) }, none)
  | _ => (vm, some "calling non-function")

/-- `isTruty` (sic): Booleans by value, Null false, everything else true. -/
def isTruty : Object → Bool
  | .boolean b => b
  | .null => false
  | _ => true

/-- `nativeBoolToBooleanObject`. -/
def nativeBoolToBooleanObject (input : Bool) : Object :=
  if input then .boolean true else .boolean false

/-- Modelled from the spec: Go interface equality `left == right` on the
non-integer comparison path is pointer identity, meaningful for the
Boolean/Null singletons; other values are separate heap allocations and
compare unequal in general (aliasing of one allocation is not modelled). -/
def identityEq : Object → Object → Bool
  | .boolean a, .boolean b => a = b
  | .null, .null => true
  | _, _ => false

/-- `vm.executeBinaryIntegerOperation` (the catch-all is the source's
`default` case). -/
def executeBinaryIntegerOperation (vm : VMState) (op : Nat)
    (left right : Object) : VMState × Option String :=
  match left, right with
  | .integer leftValue, .integer rightValue =>
    if op = opAdd then push vm (.integer (wrap64 (leftValue + rightValue)))
    else if op = opMul then push vm (.integer (wrap64 (leftValue * rightValue)))
    else if op = opDiv then push vm (.integer (wrap64 (Int.tdiv leftValue rightValue)))
    else if op = opSub then push vm (.integer (wrap64 (leftValue - rightValue)))
    else (vm, some ("unknown integer operator" ++ toString op))
  | _, _ => (vm, some "unreachable type assertion")

/-- `vm.executeBinaryStringOperation`. -/
def executeBinaryStringOperation (vm : VMState) (op : Nat)
    (left right : Object) : VMState × Option String :=
  match left, right with
  | .string leftValue, .string rightValue =>
    if op = opAdd then push vm (.string (leftValue ++ rightValue))
    else (vm, some ("unknown string operator" ++ toString op))
  | _, _ => (vm, some "unreachable type assertion")

/-- `vm.executeBinaryOperation`: pop right then left, dispatch on types. -/
def executeBinaryOperation (vm : VMState) (op : Nat) : VMState × Option String :=
  let r := popVM vm
  let l := popVM r.2
  if l.1.typeOf = "INTEGER" ∧ r.1.typeOf = "INTEGER" then
    executeBinaryIntegerOperation l.2 op l.1 r.1
  else if l.1.typeOf = "STRING" ∧ r.1.typeOf = "STRING" then
    executeBinaryStringOperation l.2 op l.1 r.1
  else
    (l.2, some ("unsupported types for binary operation " ++ l.1.typeOf
      ++ " " ++ r.1.typeOf))

/-- `vm.executeIntegerComparision` (sic). -/
def executeIntegerComparision (vm : VMState) (op : Nat)
    (left right : Object) : VMState × Option String :=
  match left, right with
  | .integer leftValue, .integer rightValue =>
    if op = opEqual then
      push vm (nativeBoolToBooleanObject (decide (leftValue = rightValue)))
    else if op = opNotEqual then
      push vm (nativeBoolToBooleanObject (!decide (leftValue = rightValue)))
    else if op = opGreaterThan then
      push vm (nativeBoolToBooleanObject (decide (rightValue < leftValue)))
    else (vm, some ("unknown integer comparision operator" ++ toString op))
  | _, _ => (vm, some "unreachable type assertion")

/-- `vm.executeComparision`: pop right then left; Integers compare by value,
everything else by identity. -/
def executeComparision (vm : VMState) (op : Nat) : VMState × Option String :=
  let r := popVM vm
  let l := popVM r.2
  if l.1.typeOf = "INTEGER" ∧ r.1.typeOf = "INTEGER" then
    executeIntegerComparision l.2 op l.1 r.1
  else if op = opEqual then
    push l.2 (nativeBoolToBooleanObject (identityEq l.1 r.1))
  else if op = opNotEqual then
    push l.2 (nativeBoolToBooleanObject (!identityEq l.1 r.1))
  else (l.2, some ("unknown bool comparision operator " ++ toString op))

/-- `vm.executeMinusOperator` (the source ignores the inner push's error and
returns nil). -/
def executeMinusOperator (vm : VMState) : VMState × Option String :=
  let r := popVM vm
  match r.1 with
  | .integer val => ((push r.2 (.integer (wrap64 (-val)))).1, none)
  | other => (r.2, some ("unsupported types for minus operation " ++ other.typeOf))

/-- `vm.executeBangOperator`: True→False, False→True, Null→True, else
False. -/
def executeBangOperator (vm : VMState) : VMState × Option String :=
  let r := popVM vm
  match r.1 with
  | .boolean true => push r.2 (.boolean false)
  | .boolean false => push r.2 (.boolean true)
  | .null => push r.2 (.boolean true)
  | _ => push r.2 (.boolean false)

/-- `vm.executeArrayIndex`: out-of-range (negative or ≥ length) pushes Null,
otherwise the element. -/
def executeArrayIndex (vm : VMState) (left index : Object) :
    VMState × Option String :=
  match left, index with
  | .array elements, .integer indexValue =>
    if indexValue < 0 ∨ (elements.length : Int) ≤ indexValue then
      push vm .null
    else
      push vm (elements.getD indexValue.toNat .null)
  | _, _ => (vm, some "unreachable type assertion")

/-- `vm.executeHashIndex`: non-hashable key errors; a miss pushes Null; a
hit pushes the pair's value. -/
def executeHashIndex (vm : VMState) (hash index : Object) :
    VMState × Option String :=
  match hash with
  | .hash pairs =>
    match hashKeyOf index with
    | none => (vm, some ("unusable as hash key: " ++ index.typeOf))
    | some k =>
      match hashGet pairs k with
      | none => push vm .null
      | some pair => push vm pair.2
  | _ => (vm, some "unreachable type assertion")

/-- `vm.executeIndexExpression`: dispatch Array+Integer / Hash / error. -/
def executeIndexExpression (vm : VMState) (left index : Object) :
    VMState × Option String :=
  if left.typeOf = "ARRAY" ∧ index.typeOf = "INTEGER" then
    executeArrayIndex vm left index
  else if left.typeOf = "HASH" then
    executeHashIndex vm left index
  else
    (vm, some ("index operator not supported:" ++ left.typeOf))

/-- One iteration of the `VM.Run` dispatch loop: increment `ip`, fetch the
opcode, and execute the matching case of the source's `switch` (opcodes with
no case — this snapshot has none for closures/builtins — fall through with
only the `ip` increment).  The `OpArray` case discards the result of its
`vm.push(array)` call exactly as the source does. -/
def vmStep (vm0 : VMState) : VMState × Option String :=
  let vm := advanceIp 1 vm0
  let ip := (currentFrame vm).ip
  let ins := (currentFrame vm).fn.instructions
  let op := ins.getD ip.toNat 0
  if op = opArray then
    let numElements := readUint16 ins (ip.toNat + 1)
    let vm := advanceIp 2 vm
    let array := buildArray vm (vm.sp - (numElements : Int)) vm.sp
    ((push vm array).1, none)
  else if op = opCall then
    let args := ins.getD (ip.toNat + 1) 0
    let vm := advanceIp 1 vm
    callFunction vm args
  else if op = opConstant then
    let constIndex := readUint16 ins (ip.toNat + 1)
    let vm := advanceIp 2 vm
    push vm (vm.constants.getD constIndex .null)
  else if op = opPop then
    ((popVM vm).2, none)
  else if op = opAdd ∨ op = opDiv ∨ op = opMul ∨ op = opSub then
    executeBinaryOperation vm op
  else if op = opNull then
    push vm .null
  else if op = opTrue then
    push vm (.boolean true)
  else if op = opFalse then
    push vm (.boolean false)
  else if op = opEqual ∨ op = opGreaterThan ∨ op = opNotEqual then
    executeComparision vm op
  else if op = opMinus then
    executeMinusOperator vm
  else if op = opBang then
    executeBangOperator vm
  else if op = opJump then
    let pos := readUint16 ins (ip.toNat + 1)
    (setFrameIp vm ((pos : Int) - 1), none)
  else if op = opJumpNotTruthy then
    let pos := readUint16 ins (ip.toNat + 1)
    let vm := advanceIp 2 vm
    let r := popVM vm
    if isTruty r.1 then (r.2, none)
    else (setFrameIp r.2 ((pos : Int) - 1), none)
  else if op = opGetGlobal then
    let globalIndex := readUint16 ins (ip.toNat + 1)
    let vm := advanceIp 2 vm
    push vm (vm.globals (globalIndex : Int))
  else if op = opGetLocal then
    let localIndex := ins.getD (ip.toNat + 1) 0
    let vm := advanceIp 1 vm
    push vm (vm.stack ((currentFrame vm).basePointer + (localIndex : Int)))
  else if op = opReturn then
    let r := popFrame vm
    push { r.2 with sp := r.1.basePointer - 1 } .null
  else if op = opReturnValue then
    let rv := popVM vm
    let r := popFrame rv.2
    push { r.2 with sp := r.1.basePointer - 1 } rv.1
  else if op = opSetGlobal then
    let globalIndex := readUint16 ins (ip.toNat + 1)
    let vm := advanceIp 2 vm
    let r := popVM vm
    ({ r.2 with globals := upd r.2.globals (globalIndex : Int) r.1 }, none)
  else if op = opSetLocal then
    let localIndex := ins.getD (ip.toNat + 1) 0
    let vm := advanceIp 1 vm
    let r := popVM vm
    ({ r.2 with
        stack := upd r.2.stack
          ((currentFrame r.2).basePointer + (localIndex : Int)) r.1 }, none)
  else if op = opHash then
    let numElements := readUint16 ins (ip.toNat + 1)
    let vm := advanceIp 2 vm
    match buildHash vm (vm.sp - (numElements : Int)) vm.sp with
    | (_, some e) => (vm, some e)
    | (hash, none) =>
      push { vm with sp := vm.sp - (numElements : Int) } hash
  else if op = opIndex then
    let r1 := popVM vm
    let r2 := popVM r1.2
    executeIndexExpression r2.2 r2.1 r1.1
  else
    (vm, none)

/-- The `VM.Run` loop (`for currentFrame.ip < len(instructions)-1`), with an
explicit iteration budget; exhausting the budget returns the state reached
so far with no error, exactly like reaching the loop exit. -/
def runFuel : Nat → VMState → VMState × Option String
  | 0, vm => (vm, none)
  | fuel + 1, vm =>
    if (currentFrame vm).ip
        < ((currentFrame vm).fn.instructions.length : Int) - 1 then
      match vmStep vm with
      | (vm', none) => runFuel fuel vm'
      | (vm', some e) => (vm', some e)
    else (vm, none)

/-- `vm.New`: main function wrapping the instructions (`NumLocals`,
`NumParameters` zero), main frame at `ip = -1`, `sp = 0`,
`framesIndex = 1`; unset globals/stack/frame slots hold the zero value. -/
def newVM (instructions : List Nat) (consts : List Object) : VMState :=
  { constants := consts
    globals := fun _ => .null
    stack := fun _ => .null
    sp := 0
    frames := fun i =>
      if i = 0 then ⟨⟨instructions, 0, 0⟩, -1, 0⟩ else ⟨⟨[], 0, 0⟩, -1, 0⟩
    framesIndex := 1 }

/-- `vm.LastPoppedStackElm`: the slot just above `sp`. -/
def lastPopped (vm : VMState) : Object := vm.stack vm.sp

/-! ## Claims about the VM -/

/-- A VM about to execute `OpArray 3` with the three elements 1, 2, 3 at
stack positions 0..2 and `sp = 3`. -/
def opArrayProbe : VMState :=
  { newVM [opArray, 0, 3] [] with
    stack := fun i => if i = 0 then .integer 1 else if i = 1 then .integer 2
      else if i = 2 then .integer 3 else .null
    sp := 3 }

/-- C1 (code bug): executing `OpArray 3` from `sp = 3` builds the correct
array from `stack[0..3)` but never decreases `sp` — the array is pushed at
position 3 on top of the still-present elements and `sp` ends at 4, not at
`3 - 3 + 1 = 1` as the (spec-backed) claim requires; the elements are not
consumed.  The parallel `OpHash` case in the same switch does perform
`sp -= numElements`. -/
theorem oparray_skips_sp_decrement :
    (vmStep opArrayProbe).2 = none
    ∧ (vmStep opArrayProbe).1.sp = 4
    ∧ (vmStep opArrayProbe).1.stack 3
        = .array [.integer 1, .integer 2, .integer 3]
    ∧ (vmStep opArrayProbe).1.stack 0 = .integer 1
    ∧ ¬ (vmStep opArrayProbe).1.sp = 1
    ∧ ¬ (vmStep opArrayProbe).1.stack 0
        = .array [.integer 1, .integer 2, .integer 3] := by
  refine ⟨rfl, rfl, rfl, rfl, ?_, ?_⟩
  · intro h
    rw [show (vmStep opArrayProbe).1.sp = 4 from rfl] at h
    exact absurd h (by decide)
  · intro h
    rw [show (vmStep opArrayProbe).1.stack 0 = .integer 1 from rfl] at h
    exact Object.noConfusion h

/-- C7: `OpCall numArgs` dispatches to `callFunction` on the callee at
`stack[sp-1-numArgs]`: a compiled function with the wrong arity aborts with
"wrong number of arguments: want=…, got=…"; a matching arity pushes a frame
with `basePointer = sp - numArgs` and sets `sp = basePointer + NumLocals`;
anything that is not a compiled function aborts with "calling
non-function". -/
theorem opcall_checks_arity (vm : VMState) (numArgs : Nat)
    (fn : CompiledFunction)
    (hfn : vm.stack (vm.sp - 1 - (numArgs : Int)) = .compiledFunction fn) :
    (fn.numParameters ≠ numArgs →
      callFunction vm numArgs
        = (vm, some ("wrong number of arguments: want="
            ++ toString fn.numParameters ++ ", got=" ++ toString numArgs)))
    ∧ (fn.numParameters = numArgs →
      callFunction vm numArgs
        = ({ pushFrame vm ⟨fn, -1, vm.sp - (numArgs : Int)⟩ with
              sp := (vm.sp - (numArgs : Int)) + (fn.numLocals : Int) }, none))
    ∧ (∀ vm' : VMState,
        (∀ g : CompiledFunction,
          vm'.stack (vm'.sp - 1 - (numArgs : Int)) ≠ .compiledFunction g) →
        callFunction vm' numArgs = (vm', some "calling non-function"))
    ∧ (∀ vm0 : VMState,
        (currentFrame (advanceIp 1 vm0)).fn.instructions.getD
            (currentFrame (advanceIp 1 vm0)).ip.toNat 0 = opCall →
        vmStep vm0 = callFunction (advanceIp 1 (advanceIp 1 vm0))
          ((currentFrame (advanceIp 1 vm0)).fn.instructions.getD
            ((currentFrame (advanceIp 1 vm0)).ip.toNat + 1) 0)) := by
  refine ⟨?_, ?_, ?_, ?_⟩
  · intro hne
    simp only [callFunction, hfn]
    rw [if_pos hne]
  · intro heq
    simp only [callFunction, hfn]
    rw [if_neg (by simp [heq])]
  · intro vm' hno
    rcases hobj : vm'.stack (vm'.sp - 1 - (numArgs : Int)) with
      v | bb | _ | s | el | p | g
    all_goals simp only [callFunction, hobj]
    exact absurd hobj (hno g)
  · intro vm0 hop
    simp only [vmStep]
    rw [hop]
    rw [if_neg (by decide), if_pos rfl]

/-- A VM whose stack holds a one-parameter compiled function below two
arguments (`fn(a){…}(1, 2)`-shaped), about to pass `numArgs = 2`. -/
def opCallArityProbe : VMState :=
  { newVM [opCall, 2] [] with
    stack := fun i => if i = 0 then .compiledFunction ⟨[], 0, 1⟩
      else if i = 1 then .integer 1 else if i = 2 then .integer 2 else .null
    sp := 3 }

/-- A VM whose stack holds a one-parameter, three-local compiled function
below one argument. -/
def opCallOkProbe : VMState :=
  { newVM [opCall, 1] [] with
    stack := fun i => if i = 1 then .compiledFunction ⟨[], 3, 1⟩
      else if i = 2 then .integer 7 else .null
    sp := 3 }

/-- Witness for `opcall_checks_arity`: the arity error of `fn(a){a}(1,2)`,
a successful call (`basePointer = 2`, `sp = 5`), and calling a
non-function. -/
theorem opcall_checks_arity_wit :
    callFunction opCallArityProbe 2
      = (opCallArityProbe, some "wrong number of arguments: want=1, got=2")
    ∧ (callFunction opCallOkProbe 1).2 = none
    ∧ (callFunction opCallOkProbe 1).1.sp = 5
    ∧ (currentFrame (callFunction opCallOkProbe 1).1).basePointer = 2
    ∧ callFunction (newVM [opCall, 0] []) 2
      = (newVM [opCall, 0] [], some "calling non-function") := by
  have h1 := (opcall_checks_arity opCallArityProbe 2 ⟨[], 0, 1⟩ rfl).1
    (by decide)
  have h2 := (opcall_checks_arity opCallOkProbe 1 ⟨[], 3, 1⟩ rfl).2.1 rfl
  have h3 := (opcall_checks_arity opCallArityProbe 2 ⟨[], 0, 1⟩ rfl).2.2.1
    (newVM [opCall, 0] []) (fun g h => Object.noConfusion h)
  refine ⟨h1, ?_, ?_, ?_, h3⟩
  · rw [h2]
  · rw [h2]
    rfl
  · rw [h2]
    rfl

/-- C8: `OpIndex` pops the index then the left value and hands them to
`executeIndexExpression`, which dispatches on the left value's type:
Array+Integer pushes the element, or Null (not an error) when the index is
negative or at least the length; Hash pushes the looked-up value, Null on a
missing key, and errors on a non-hashable index; any other left type aborts
with an error. -/
theorem opindex_dispatch (vm : VMState) (elements : List Object)
    (pairs : List (HashKey × Object × Object)) (idx : Int)
    (left index : Object) (k : HashKey) (pair : Object × Object) :
    (∀ vm0 : VMState,
      (currentFrame (advanceIp 1 vm0)).fn.instructions.getD
          (currentFrame (advanceIp 1 vm0)).ip.toNat 0 = opIndex →
      vmStep vm0 = executeIndexExpression
        (popVM (popVM (advanceIp 1 vm0)).2).2
        (popVM (popVM (advanceIp 1 vm0)).2).1
        (popVM (advanceIp 1 vm0)).1)
    ∧ (0 ≤ idx → idx < (elements.length : Int) →
      executeIndexExpression vm (.array elements) (.integer idx)
        = push vm (elements.getD idx.toNat .null))
    ∧ ((idx < 0 ∨ (elements.length : Int) ≤ idx) →
      executeIndexExpression vm (.array elements) (.integer idx)
        = push vm .null)
    ∧ (hashKeyOf index = some k → hashGet pairs k = some pair →
      executeIndexExpression vm (.hash pairs) index = push vm pair.2)
    ∧ (hashKeyOf index = some k → hashGet pairs k = none →
      executeIndexExpression vm (.hash pairs) index = push vm .null)
    ∧ (hashKeyOf index = none →
      executeIndexExpression vm (.hash pairs) index
        = (vm, some ("unusable as hash key: " ++ index.typeOf)))
    ∧ (left.typeOf ≠ "ARRAY" → left.typeOf ≠ "HASH" →
      executeIndexExpression vm left index
        = (vm, some ("index operator not supported:" ++ left.typeOf))) := by
  refine ⟨?_, ?_, ?_, ?_, ?_, ?_, ?_⟩
  · intro vm0 hop
    simp only [vmStep]
    rw [hop]
    rw [if_neg (by decide), if_neg (by decide), if_neg (by decide),
      if_neg (by decide), if_neg (by decide), if_neg (by decide),
      if_neg (by decide), if_neg (by decide), if_neg (by decide),
      if_neg (by decide), if_neg (by decide), if_neg (by decide),
      if_neg (by decide), if_neg (by decide), if_neg (by decide),
      if_neg (by decide), if_neg (by decide), if_neg (by decide),
      if_neg (by decide), if_neg (by decide), if_pos rfl]
  · intro h0 hlen
    simp only [executeIndexExpression]
    rw [if_pos ⟨rfl, rfl⟩]
    simp only [executeArrayIndex]
    rw [if_neg (by omega)]
  · intro hout
    simp only [executeIndexExpression]
    rw [if_pos ⟨rfl, rfl⟩]
    simp only [executeArrayIndex]
    rw [if_pos hout]
  · intro hk hget
    simp only [executeIndexExpression]
    rw [if_neg (show ¬ ((Object.hash pairs).typeOf = "ARRAY"
          ∧ index.typeOf = "INTEGER") from
        fun hcon => absurd hcon.1 (by decide : ¬ ("HASH" : String) = "ARRAY")),
      if_pos (show (Object.hash pairs).typeOf = "HASH" from rfl)]
    simp only [executeHashIndex, hk, hget]
  · intro hk hget
    simp only [executeIndexExpression]
    rw [if_neg (show ¬ ((Object.hash pairs).typeOf = "ARRAY"
          ∧ index.typeOf = "INTEGER") from
        fun hcon => absurd hcon.1 (by decide : ¬ ("HASH" : String) = "ARRAY")),
      if_pos (show (Object.hash pairs).typeOf = "HASH" from rfl)]
    simp only [executeHashIndex, hk, hget]
  · intro hk
    simp only [executeIndexExpression]
    rw [if_neg (show ¬ ((Object.hash pairs).typeOf = "ARRAY"
          ∧ index.typeOf = "INTEGER") from
        fun hcon => absurd hcon.1 (by decide : ¬ ("HASH" : String) = "ARRAY")),
      if_pos (show (Object.hash pairs).typeOf = "HASH" from rfl)]
    simp only [executeHashIndex, hk]
  · intro ha hh
    simp only [executeIndexExpression]
    rw [if_neg (fun hcon => ha hcon.1), if_neg hh]

/-- Witness for `opindex_dispatch`: `[1,2,3][99]` pushes Null, `[1,2,3][1]`
pushes 2, and indexing a hash with an array key errors. -/
theorem opindex_dispatch_wit :
    executeIndexExpression (newVM [] [])
        (.array [.integer 1, .integer 2, .integer 3]) (.integer 99)
      = push (newVM [] []) .null
    ∧ executeIndexExpression (newVM [] [])
        (.array [.integer 1, .integer 2, .integer 3]) (.integer 1)
      = push (newVM [] []) (.integer 2)
    ∧ executeIndexExpression (newVM [] []) (.hash []) (.array [])
      = (newVM [] [], some "unusable as hash key: ARRAY") := by
  refine ⟨?_, ?_, ?_⟩
  · exact (opindex_dispatch (newVM [] []) [.integer 1, .integer 2, .integer 3]
      [] 99 .null .null (.boolKey true) (.null, .null)).2.2.1
      (Or.inr (by decide))
  · exact (opindex_dispatch (newVM [] []) [.integer 1, .integer 2, .integer 3]
      [] 1 .null .null (.boolKey true) (.null, .null)).2.1
      (by decide) (by decide)
  · exact (opindex_dispatch (newVM [] []) [] [] 0 .null (.array [])
      (.boolKey true) (.null, .null)).2.2.2.2.2.1 rfl

/-- C9: the compiler emits no less-than opcode — `a < b` compiles to the
same bytecode as `b > a` (right operand first, then left, then
`OpGreaterThan`), and running that bytecode leaves the Boolean of `a < b`
as the last popped element. -/
theorem less_than_swaps_to_greater_than (a b : Int) :
    compile (.program [.expressionStatement
        (.infixExpression "<" (.integerLiteral a) (.integerLiteral b))])
      CState.new
      = compile (.program [.expressionStatement
          (.infixExpression ">" (.integerLiteral b) (.integerLiteral a))])
        CState.new
    ∧ (compile (.program [.expressionStatement
        (.infixExpression "<" (.integerLiteral a) (.integerLiteral b))])
          CState.new).1.instructions
      = [opConstant, 0, 0, opConstant, 0, 1, opGreaterThan, opPop]
    ∧ (compile (.program [.expressionStatement
        (.infixExpression "<" (.integerLiteral a) (.integerLiteral b))])
          CState.new).1.constants = [.integer b, .integer a]
    ∧ lastPopped (runFuel 8 (newVM
        [opConstant, 0, 0, opConstant, 0, 1, opGreaterThan, opPop]
        [.integer b, .integer a])).1
      = nativeBoolToBooleanObject (decide (a < b)) := by
  refine ⟨?_, ?_, ?_, ?_⟩
  · rfl
  · with_unfolding_all rfl
  · rfl
  · rfl

end Monkey
